import Mathlib

/-!
Shallow embedding of the merge/reconciliation scripts of the darija-app-data
repository (`scripts/_merge_categorization_into_dataset.py` and
`scripts/_merge_validation_into_dataset.py`), together with proofs of the
specified properties of the reconciliation engine.

JSON values are modelled by `JValue`; a parsed JSON object (Python dict) is a
`Record`, an ordered association list of string keys, matching Python dict
insertion-order semantics. Timestamp parsing (`datetime.fromisoformat`) is an
external library call, modelled by a parameter `parseTs : String → Option Nat`
(`none` models a raised exception; the `Nat` result carries the linear order
used by datetime comparison).
-/

mutual

/-- A JSON-compatible value as handled by the Python scripts. -/
inductive JValue where
  | null : JValue
  | bool : Bool → JValue
  | num : Int → JValue
  | str : String → JValue
  | arr : JArr → JValue
  | obj : JObj → JValue

/-- A JSON array nested inside a value. -/
inductive JArr where
  | nil : JArr
  | cons : JValue → JArr → JArr

/-- A JSON object nested inside a value (ordered key-value pairs). -/
inductive JObj where
  | nil : JObj
  | cons : String → JValue → JObj → JObj

end

deriving instance DecidableEq for JValue
deriving instance DecidableEq for JArr
deriving instance DecidableEq for JObj

/-- Emptiness of a nested JSON array. -/
def JArr.isEmpty : JArr → Bool
  | .nil => true
  | .cons _ _ => false

/-- Emptiness of a nested JSON object. -/
def JObj.isEmpty : JObj → Bool
  | .nil => true
  | .cons _ _ _ => false

/-- Build a nested JSON array from a list of values. -/
def JArr.ofList : List JValue → JArr
  | [] => .nil
  | v :: rest => .cons v (JArr.ofList rest)

/-- Build a nested JSON object from a list of key-value pairs. -/
def JObj.ofList : List (String × JValue) → JObj
  | [] => .nil
  | (k, v) :: rest => .cons k v (JObj.ofList rest)

/-- Number of keys of a nested JSON object (`len` of a Python dict). -/
def JObj.length : JObj → Nat
  | .nil => 0
  | .cons _ _ rest => 1 + JObj.length rest

/-- A top-level parsed JSON object / Python dict: ordered key-value pairs. -/
abbrev Record := List (String × JValue)

/-- `d.get(key)` on a Python dict (`none` when the key is absent). -/
def Record.get : Record → String → Option JValue
  | [], _ => none
  | (k, v) :: rest, key => if k = key then some v else Record.get rest key

/-- `key in d` on a Python dict. -/
def Record.contains (r : Record) (key : String) : Bool :=
  (r.get key).isSome

/-- `d[key] = val` on a Python dict: update in place if the key exists
(keeping its position), else append, as Python dicts do. -/
def Record.set : Record → String → JValue → Record
  | [], key, val => [(key, val)]
  | (k, v) :: rest, key, val =>
      if k = key then (k, val) :: rest else (k, v) :: Record.set rest key val

/-- Python truthiness of a JSON value. -/
def pyTruthy : JValue → Bool
  | .null => false
  | .bool b => b
  | .num n => n != 0
  | .str s => s != ""
  | .arr xs => !xs.isEmpty
  | .obj fs => !fs.isEmpty

/-- Truthiness of `d.get(key)`: an absent key yields `None`, which is falsy. -/
def truthyOpt : Option JValue → Bool
  | none => false
  | some v => pyTruthy v

/-- Truthiness of a looked-up annotation record: `None` is falsy and so is an
empty dict. -/
def truthyRec : Option Record → Bool
  | none => false
  | some r => !r.isEmpty

/-- The id-keyed annotation maps built by `load_logs` /
`load_validation_logs`: Python dicts keyed by the (arbitrary JSON) value of
the `id` field. -/
abbrev AnnMap := List (JValue × Record)

/-- Lookup in an id-keyed dict. -/
def AnnMap.find : AnnMap → JValue → Option Record
  | [], _ => none
  | (k, r) :: rest, key => if k = key then some r else AnnMap.find rest key

/-- Assignment in an id-keyed dict: replace in place or append. -/
def AnnMap.put : AnnMap → JValue → Record → AnnMap
  | [], key, r => [(key, r)]
  | (k, v) :: rest, key, r =>
      if k = key then (k, r) :: rest else (k, v) :: AnnMap.put rest key r

/-! ## scripts/_merge_categorization_into_dataset.py -/

/-- `WHITELIST_FIELDS` of `_merge_categorization_into_dataset.py`. -/
def WHITELIST_FIELDS : List String :=
  ["frequency_score", "is_daily_darija", "is_standard_arabic",
   "user_summary_de", "user_summary_en", "category_confidence", "category"]

/-- `is_meaningful` of `_merge_categorization_into_dataset.py`: `None`, a
whitespace-only string (`value.strip() == ""` holds exactly when every
character is whitespace), and an empty list are non-meaningful; everything
else is meaningful. -/
def is_meaningful : JValue → Bool
  | .null => false
  | .str s => !s.data.all (fun c => c.isWhitespace)
  | .arr xs => !xs.isEmpty
  | _ => true

/-- The timestamp of an annotation record as computed inside `load_logs`:
`datetime.fromisoformat(ts_str) if ts_str else None`, with any exception
mapped to `None`. A non-string truthy value raises `TypeError`, so only a
non-empty string is ever parsed. -/
def recTs (parseTs : String → Option Nat) (rec : Record) : Option Nat :=
  match rec.get "timestamp" with
  | some (.str s) => if s = "" then none else parseTs s
  | _ => none

/-- One step of the `load_logs` duplicate-resolution loop: a record without
`id` is skipped; the first record for an id is kept; a later record replaces
the kept one iff it has a timestamp and the kept one has none or an earlier
one, or neither has a timestamp (last occurrence wins). -/
def loadLogsStep (parseTs : String → Option Nat) (best : AnnMap) (rec : Record) :
    AnnMap :=
  match rec.get "id" with
  | none => best
  | some rid =>
    match best.find rid with
    | none => best.put rid rec
    | some prev =>
      match recTs parseTs rec, recTs parseTs prev with
      | some _, none => best.put rid rec
      | some t, some pt => if pt < t then best.put rid rec else best
      | none, none => best.put rid rec
      | none, some _ => best

/-- `load_logs` of `_merge_categorization_into_dataset.py`, applied to the
already-parsed records of the JSONL file (blank lines skipped; a parse error
aborts the load and is outside this model). -/
def load_logs (parseTs : String → Option Nat) (lines : List Record) : AnnMap :=
  lines.foldl (loadLogsStep parseTs) []

/-- The stats dict of `merge` in `_merge_categorization_into_dataset.py`. -/
structure MergeStats where
  entries_total : Nat
  entries_with_log : Nat
  fields_added : Nat
  fields_skipped_overwrite : Nat
  entries_modified : Nat
  entries_unmatched : Nat
deriving DecidableEq

/-- The `skip_overwrite` log record emitted by `merge`. -/
def skipLog (entry_id : JValue) (field : String) (dst_val src_val : JValue) :
    Record :=
  [("id", entry_id), ("action", .str "skip_overwrite"), ("field", .str field),
   ("existing_value", dst_val), ("new_value_ignored", src_val)]

/-- The `add_field` log record emitted by `merge`. -/
def addLog (entry_id : JValue) (field : String) (src_val : JValue) : Record :=
  [("id", entry_id), ("action", .str "add_field"), ("field", .str field),
   ("value", src_val)]

/-- State of the inner per-field loop of `merge`: the (mutated) entry, the
log records appended so far, the two per-field counters and the
`entry_modified` flag. -/
structure FieldState where
  entry : Record
  logs : List Record
  added : Nat
  skipped : Nat
  modified : Bool
deriving DecidableEq

/-- One iteration of `for field in WHITELIST_FIELDS` inside `merge`. -/
def mergeField (entry_id : JValue) (src : Record) (st : FieldState)
    (field : String) : FieldState :=
  match src.get field with
  | none => st
  | some src_val =>
    let dst_has := st.entry.contains field
    let dst_val := (st.entry.get field).getD .null
    if dst_has && is_meaningful dst_val then
      { st with logs := st.logs ++ [skipLog entry_id field dst_val src_val],
                skipped := st.skipped + 1 }
    else
      { st with entry := st.entry.set field src_val,
                logs := st.logs ++ [addLog entry_id field src_val],
                added := st.added + 1,
                modified := true }

/-- The whole inner per-field loop of `merge` for one matched entry. -/
def mergeFields (entry_id : JValue) (src : Record) (entry : Record) :
    FieldState :=
  WHITELIST_FIELDS.foldl (mergeField entry_id src) ⟨entry, [], 0, 0, false⟩

/-- State of the outer loop of `merge`: entries processed so far (the code
mutates them in place and returns the same list), accumulated log records and
stats. -/
structure MergeState where
  dataset : List Record
  logs : List Record
  stats : MergeStats
deriving DecidableEq

/-- One iteration of `for entry in dataset` inside `merge`: skip records with
a falsy `id`; count records with no (or a falsy) matching annotation as
unmatched; otherwise run the per-field loop and fold its results into the
accumulated log and stats. -/
def mergeEntry (logs_by_id : AnnMap) (st : MergeState) (entry : Record) :
    MergeState :=
  let entry_id? := entry.get "id"
  if !truthyOpt entry_id? then
    { st with dataset := st.dataset ++ [entry] }
  else
    let entry_id := entry_id?.getD .null
    let src? := logs_by_id.find entry_id
    if !truthyRec src? then
      { st with dataset := st.dataset ++ [entry],
                stats := { st.stats with
                  entries_unmatched := st.stats.entries_unmatched + 1 } }
    else
      let fs := mergeFields entry_id (src?.getD []) entry
      { dataset := st.dataset ++ [fs.entry],
        logs := st.logs ++ fs.logs,
        stats := { st.stats with
          entries_with_log := st.stats.entries_with_log + 1,
          fields_added := st.stats.fields_added + fs.added,
          fields_skipped_overwrite :=
            st.stats.fields_skipped_overwrite + fs.skipped,
          entries_modified :=
            st.stats.entries_modified + (if fs.modified then 1 else 0) } }

/-- `merge` of `_merge_categorization_into_dataset.py`: returns the merged
dataset, the log records, and the stats. -/
def merge (dataset : List Record) (logs_by_id : AnnMap) :
    List Record × List Record × MergeStats :=
  let final := dataset.foldl (mergeEntry logs_by_id)
    ⟨[], [], ⟨dataset.length, 0, 0, 0, 0, 0⟩⟩
  (final.dataset, final.logs, final.stats)

/-! ## scripts/_merge_validation_into_dataset.py -/

/-- `VALIDATION_FIELDS` of `_merge_validation_into_dataset.py`. -/
def VALIDATION_FIELDS : List String :=
  ["include", "reason", "main_form_ok", "main_form_suggestion", "en_ok",
   "en_suggestions", "de_ok", "de_suggestions", "notes", "confidence"]

/-- `load_validation_logs` of `_merge_validation_into_dataset.py`:
last record wins for duplicate ids; records without `id` are skipped. -/
def load_validation_logs (lines : List Record) : AnnMap :=
  lines.foldl
    (fun by_id rec =>
      match rec.get "id" with
      | none => by_id
      | some rid => by_id.put rid rec)
    []

/-- The dict comprehension
`{field: validation[field] for field in VALIDATION_FIELDS if field in validation}`. -/
def restrictFields (validation : Record) (fields : List String) : Record :=
  fields.filterMap (fun f => (validation.get f).map (fun v => (f, v)))

/-- The stats dict of `merge` in `_merge_validation_into_dataset.py`. -/
structure VStats where
  entries_total : Nat
  validation_fields_added : Nat
  validation_entries_with_log : Nat
  entries_unmatched : Nat
deriving DecidableEq

/-- State of the loop of the validation-merge `merge`. -/
structure VMergeState where
  dataset : List Record
  logs : List Record
  stats : VStats
deriving DecidableEq

/-- One iteration of `for entry in dataset` inside the validation-merge
`merge`: skip falsy-id records; on a truthy matched validation record, set
`include` (when present) at top level and the restricted validation dict
under `validation`, and log; otherwise count the entry unmatched. -/
def vMergeEntry (validation_by_id : AnnMap) (st : VMergeState)
    (entry : Record) : VMergeState :=
  let entry_id? := entry.get "id"
  if !truthyOpt entry_id? then
    { st with dataset := st.dataset ++ [entry] }
  else
    let entry_id := entry_id?.getD .null
    let validation? := validation_by_id.find entry_id
    if truthyRec validation? then
      let validation := validation?.getD []
      let sub := restrictFields validation VALIDATION_FIELDS
      let entry' :=
        match validation.get "include" with
        | some inc => (entry.set "include" inc).set "validation" (.obj (JObj.ofList sub))
        | none => entry.set "validation" (.obj (JObj.ofList sub))
      let logRec : Record :=
        [("id", entry_id), ("action", .str "add_validation_object"),
         ("fields", .arr (JArr.ofList (sub.map (fun p => .str p.1)))),
         ("include_top_level", (validation.get "include").getD .null)]
      { dataset := st.dataset ++ [entry'],
        logs := st.logs ++ [logRec],
        stats := { st.stats with
          validation_entries_with_log :=
            st.stats.validation_entries_with_log + 1,
          validation_fields_added :=
            st.stats.validation_fields_added + sub.length } }
    else
      { st with dataset := st.dataset ++ [entry],
                stats := { st.stats with
                  entries_unmatched := st.stats.entries_unmatched + 1 } }

/-- `merge` of `_merge_validation_into_dataset.py`. -/
def vMerge (dataset : List Record) (validation_by_id : AnnMap) :
    List Record × List Record × VStats :=
  let final := dataset.foldl (vMergeEntry validation_by_id)
    ⟨[], [], ⟨dataset.length, 0, 0, 0⟩⟩
  (final.dataset, final.logs, final.stats)

/-! ## Per-entry decomposition of the merge loops -/

/-- The contribution of one entry to the outputs of `merge`, in isolation:
the resulting entry, its log records, and its additions to each counter
other than `entries_total`. -/
structure EntryDelta where
  entry : Record
  logs : List Record
  withLog : Nat
  added : Nat
  skipped : Nat
  modified : Nat
  unmatched : Nat
deriving DecidableEq

/-- What one iteration of the `merge` loop does to one entry, as a pure
function of the entry and the annotation map. -/
def entryDelta (logs_by_id : AnnMap) (e : Record) : EntryDelta :=
  if !truthyOpt (e.get "id") then ⟨e, [], 0, 0, 0, 0, 0⟩
  else
    let eid := (e.get "id").getD .null
    let src? := logs_by_id.find eid
    if !truthyRec src? then ⟨e, [], 0, 0, 0, 0, 1⟩
    else
      let fs := mergeFields eid (src?.getD []) e
      ⟨fs.entry, fs.logs, 1, fs.added, fs.skipped,
       if fs.modified then 1 else 0, 0⟩

/-- The contribution of one entry to the outputs of the validation-merge. -/
structure VEntryDelta where
  entry : Record
  logs : List Record
  withLog : Nat
  fieldsAdded : Nat
  unmatched : Nat
deriving DecidableEq

/-- What one iteration of the validation-merge loop does to one entry. -/
def vEntryDelta (validation_by_id : AnnMap) (e : Record) : VEntryDelta :=
  if !truthyOpt (e.get "id") then ⟨e, [], 0, 0, 0⟩
  else
    let eid := (e.get "id").getD .null
    let validation? := validation_by_id.find eid
    if truthyRec validation? then
      let validation := validation?.getD []
      let sub := restrictFields validation VALIDATION_FIELDS
      let entry' :=
        match validation.get "include" with
        | some inc =>
            (e.set "include" inc).set "validation" (.obj (JObj.ofList sub))
        | none => e.set "validation" (.obj (JObj.ofList sub))
      ⟨entry',
       [[("id", eid), ("action", .str "add_validation_object"),
         ("fields", .arr (JArr.ofList (sub.map (fun p => .str p.1)))),
         ("include_top_level", (validation.get "include").getD .null)]],
       1, sub.length, 0⟩
    else ⟨e, [], 0, 0, 1⟩

/-- Whether a log record is an `add_field` decision. -/
def isAddLog (r : Record) : Bool :=
  r.get "action" = some (.str "add_field")

/-- The number of merge decisions one record gives rise to: the whitelisted
fields present in its matched annotation, when the record has a truthy id and
a truthy matched annotation (C5's right-hand side). -/
def decisionCount (logs_by_id : AnnMap) (e : Record) : Nat :=
  if truthyOpt (e.get "id") &&
      truthyRec (logs_by_id.find ((e.get "id").getD .null)) then
    WHITELIST_FIELDS.countP
      (fun F => ((logs_by_id.find ((e.get "id").getD .null)).getD []).contains F)
  else 0

/-- Modelled from the claim wording of C7: the validation sub-mapping that C7
asserts is written, namely the whitelisted fields other than the gate field
`include`. The code in fact writes `restrictFields validation
VALIDATION_FIELDS`, which also contains `include`. -/
def nestRemainingClaim (validation : Record) : Record :=
  restrictFields validation (VALIDATION_FIELDS.filter (fun f => f ≠ "include"))

/-! ## Basic lemmas on records and maps -/

theorem Record.get_set_self (r : Record) (k : String) (v : JValue) :
    (r.set k v).get k = some v := by
  induction r with
  | nil => simp [Record.set, Record.get]
  | cons hd tl ih =>
      obtain ⟨k', v'⟩ := hd
      by_cases h : k' = k
      · simp [Record.set, Record.get, h]
      · simp [Record.set, Record.get, h, ih]

theorem Record.get_set_ne (r : Record) (k key : String) (v : JValue)
    (h : k ≠ key) : (r.set k v).get key = r.get key := by
  induction r with
  | nil => simp [Record.set, Record.get, h]
  | cons hd tl ih =>
      obtain ⟨k', v'⟩ := hd
      by_cases h' : k' = k
      · subst h'
        simp [Record.set, Record.get, h]
      · simp [Record.set, Record.get, h', ih]

theorem AnnMap.find_mem (m : AnnMap) (key : JValue) (r : Record)
    (h : m.find key = some r) : (key, r) ∈ m := by
  induction m with
  | nil => simp [AnnMap.find] at h
  | cons hd tl ih =>
      obtain ⟨k', r'⟩ := hd
      by_cases hk : k' = key
      · subst hk
        simp [AnnMap.find] at h
        simp [h]
      · simp [AnnMap.find, hk] at h
        exact List.mem_cons_of_mem _ (ih h)

/-! ## Decomposition of `merge` -/

theorem mergeEntry_eq (L : AnnMap) (st : MergeState) (e : Record) :
    mergeEntry L st e =
      ⟨st.dataset ++ [(entryDelta L e).entry],
       st.logs ++ (entryDelta L e).logs,
       ⟨st.stats.entries_total,
        st.stats.entries_with_log + (entryDelta L e).withLog,
        st.stats.fields_added + (entryDelta L e).added,
        st.stats.fields_skipped_overwrite + (entryDelta L e).skipped,
        st.stats.entries_modified + (entryDelta L e).modified,
        st.stats.entries_unmatched + (entryDelta L e).unmatched⟩⟩ := by
  unfold mergeEntry entryDelta
  by_cases h1 : truthyOpt (e.get "id")
  · by_cases h2 : truthyRec (AnnMap.find L ((e.get "id").getD .null))
    · simp [h1, h2]
    · simp [h1, h2]
  · simp [h1]

theorem foldl_mergeEntry (L : AnnMap) (ds : List Record) (st : MergeState) :
    ds.foldl (mergeEntry L) st =
      ⟨st.dataset ++ ds.map (fun e => (entryDelta L e).entry),
       st.logs ++ ds.flatMap (fun e => (entryDelta L e).logs),
       ⟨st.stats.entries_total,
        st.stats.entries_with_log +
          (ds.map (fun e => (entryDelta L e).withLog)).sum,
        st.stats.fields_added + (ds.map (fun e => (entryDelta L e).added)).sum,
        st.stats.fields_skipped_overwrite +
          (ds.map (fun e => (entryDelta L e).skipped)).sum,
        st.stats.entries_modified +
          (ds.map (fun e => (entryDelta L e).modified)).sum,
        st.stats.entries_unmatched +
          (ds.map (fun e => (entryDelta L e).unmatched)).sum⟩⟩ := by
  induction ds generalizing st with
  | nil => simp
  | cons e rest ih =>
      rw [List.foldl_cons, ih, mergeEntry_eq]
      simp [Nat.add_assoc]

theorem merge_eq (ds : List Record) (L : AnnMap) :
    merge ds L =
      (ds.map (fun e => (entryDelta L e).entry),
       ds.flatMap (fun e => (entryDelta L e).logs),
       ⟨ds.length,
        (ds.map (fun e => (entryDelta L e).withLog)).sum,
        (ds.map (fun e => (entryDelta L e).added)).sum,
        (ds.map (fun e => (entryDelta L e).skipped)).sum,
        (ds.map (fun e => (entryDelta L e).modified)).sum,
        (ds.map (fun e => (entryDelta L e).unmatched)).sum⟩) := by
  unfold merge
  rw [foldl_mergeEntry]
  simp

/-! ## Decomposition of the validation-merge -/

theorem vMergeEntry_eq (V : AnnMap) (st : VMergeState) (e : Record) :
    vMergeEntry V st e =
      ⟨st.dataset ++ [(vEntryDelta V e).entry],
       st.logs ++ (vEntryDelta V e).logs,
       ⟨st.stats.entries_total,
        st.stats.validation_fields_added + (vEntryDelta V e).fieldsAdded,
        st.stats.validation_entries_with_log + (vEntryDelta V e).withLog,
        st.stats.entries_unmatched + (vEntryDelta V e).unmatched⟩⟩ := by
  unfold vMergeEntry vEntryDelta
  by_cases h1 : truthyOpt (e.get "id")
  · by_cases h2 : truthyRec (AnnMap.find V ((e.get "id").getD .null))
    · cases hinc : Record.get ((AnnMap.find V ((e.get "id").getD .null)).getD []) "include" with
      | none => simp [h1, h2, hinc]
      | some inc => simp [h1, h2, hinc]
    · simp [h1, h2]
  · simp [h1]

theorem foldl_vMergeEntry (V : AnnMap) (ds : List Record) (st : VMergeState) :
    ds.foldl (vMergeEntry V) st =
      ⟨st.dataset ++ ds.map (fun e => (vEntryDelta V e).entry),
       st.logs ++ ds.flatMap (fun e => (vEntryDelta V e).logs),
       ⟨st.stats.entries_total,
        st.stats.validation_fields_added +
          (ds.map (fun e => (vEntryDelta V e).fieldsAdded)).sum,
        st.stats.validation_entries_with_log +
          (ds.map (fun e => (vEntryDelta V e).withLog)).sum,
        st.stats.entries_unmatched +
          (ds.map (fun e => (vEntryDelta V e).unmatched)).sum⟩⟩ := by
  induction ds generalizing st with
  | nil => simp
  | cons e rest ih =>
      rw [List.foldl_cons, ih, vMergeEntry_eq]
      simp [Nat.add_assoc]

theorem vMerge_eq (ds : List Record) (V : AnnMap) :
    vMerge ds V =
      (ds.map (fun e => (vEntryDelta V e).entry),
       ds.flatMap (fun e => (vEntryDelta V e).logs),
       ⟨ds.length,
        (ds.map (fun e => (vEntryDelta V e).fieldsAdded)).sum,
        (ds.map (fun e => (vEntryDelta V e).withLog)).sum,
        (ds.map (fun e => (vEntryDelta V e).unmatched)).sum⟩) := by
  unfold vMerge
  rw [foldl_vMergeEntry]
  simp

/-! ## Lemmas on the per-field loop of `merge` -/

theorem mergeField_get_preserve (eid : JValue) (src : Record) (st : FieldState)
    (f F : String) (v : JValue) (hv : st.entry.get F = some v)
    (hm : is_meaningful v = true) :
    (mergeField eid src st f).entry.get F = some v := by
  unfold mergeField
  cases hsf : src.get f with
  | none => simpa using hv
  | some sv =>
      by_cases hcond :
          (st.entry.contains f &&
            is_meaningful ((st.entry.get f).getD .null)) = true
      · simp [hcond, hv]
      · have hne : f ≠ F := by
          intro h
          subst h
          simp [Record.contains, hv, hm] at hcond
        simp [hcond, Record.get_set_ne _ _ _ _ hne, hv]

theorem mergeField_get_ne (eid : JValue) (src : Record) (st : FieldState)
    (f F : String) (hne : f ≠ F) :
    (mergeField eid src st f).entry.get F = st.entry.get F := by
  unfold mergeField
  cases hsf : src.get f with
  | none => simp
  | some sv =>
      by_cases hcond :
          (st.entry.contains f &&
            is_meaningful ((st.entry.get f).getD .null)) = true
      · simp [hcond]
      · simp [hcond, Record.get_set_ne _ _ _ _ hne]

theorem foldl_mergeField_get_preserve (eid : JValue) (src : Record) :
    ∀ (fields : List String) (st : FieldState) (F : String) (v : JValue),
      st.entry.get F = some v → is_meaningful v = true →
      (fields.foldl (mergeField eid src) st).entry.get F = some v := by
  intro fields
  induction fields with
  | nil => intro st F v hv _; simpa using hv
  | cons f rest ih =>
      intro st F v hv hm
      exact ih _ _ _ (mergeField_get_preserve eid src st f F v hv hm) hm

theorem foldl_mergeField_get_not_mem (eid : JValue) (src : Record) :
    ∀ (fields : List String) (st : FieldState) (F : String),
      F ∉ fields →
      (fields.foldl (mergeField eid src) st).entry.get F = st.entry.get F := by
  intro fields
  induction fields with
  | nil => intro st F _; simp
  | cons f rest ih =>
      intro st F hF
      have hne : f ≠ F := fun h => hF (h ▸ List.mem_cons_self f rest)
      have hrest : F ∉ rest := fun h => hF (List.mem_cons_of_mem f h)
      rw [List.foldl_cons, ih _ _ hrest, mergeField_get_ne eid src st f F hne]

theorem mergeField_logs_mono (eid : JValue) (src : Record) (st : FieldState)
    (f : String) (x : Record) (hx : x ∈ st.logs) :
    x ∈ (mergeField eid src st f).logs := by
  unfold mergeField
  cases hsf : src.get f with
  | none => simpa using hx
  | some sv =>
      by_cases hcond :
          (st.entry.contains f &&
            is_meaningful ((st.entry.get f).getD .null)) = true
      · simp [hcond, hx]
      · simp [hcond, hx]

theorem foldl_mergeField_logs_mono (eid : JValue) (src : Record) :
    ∀ (fields : List String) (st : FieldState) (x : Record),
      x ∈ st.logs → x ∈ (fields.foldl (mergeField eid src) st).logs := by
  intro fields
  induction fields with
  | nil => intro st x hx; simpa using hx
  | cons f rest ih =>
      intro st x hx
      exact ih _ _ (mergeField_logs_mono eid src st f x hx)

theorem foldl_mergeField_skip_mem (eid : JValue) (src : Record) :
    ∀ (fields : List String) (st : FieldState) (F : String) (v sv : JValue),
      F ∈ fields → src.get F = some sv → st.entry.get F = some v →
      is_meaningful v = true →
      skipLog eid F v sv ∈ (fields.foldl (mergeField eid src) st).logs := by
  intro fields
  induction fields with
  | nil => intro st F v sv hF _ _ _; simp at hF
  | cons f rest ih =>
      intro st F v sv hF hsv hv hm
      rcases List.mem_cons.mp hF with rfl | hF'
      · have hstep :
            (mergeField eid src st F).logs =
              st.logs ++ [skipLog eid F v sv] := by
          unfold mergeField
          simp [hsv, hv, hm, Record.contains]
        rw [List.foldl_cons]
        apply foldl_mergeField_logs_mono
        rw [hstep]
        simp
      · exact ih _ _ _ _ hF' hsv
          (mergeField_get_preserve eid src st f F v hv hm) hm

theorem foldl_mergeField_fill (eid : JValue) (src : Record) :
    ∀ (fields : List String) (st : FieldState) (F : String) (sv : JValue),
      fields.Nodup → F ∈ fields → src.get F = some sv →
      is_meaningful ((st.entry.get F).getD .null) = false →
      (fields.foldl (mergeField eid src) st).entry.get F = some sv ∧
        addLog eid F sv ∈ (fields.foldl (mergeField eid src) st).logs := by
  intro fields
  induction fields with
  | nil => intro st F sv _ hF _ _; simp at hF
  | cons f rest ih =>
      intro st F sv hnd hF hsv hempty
      rcases List.mem_cons.mp hF with rfl | hF'
      · have hFrest : F ∉ rest := (List.nodup_cons.mp hnd).1
        have hstep_entry :
            (mergeField eid src st F).entry = st.entry.set F sv := by
          unfold mergeField
          simp [hsv, hempty]
        have hstep_logs :
            (mergeField eid src st F).logs = st.logs ++ [addLog eid F sv] := by
          unfold mergeField
          simp [hsv, hempty]
        constructor
        · rw [List.foldl_cons,
            foldl_mergeField_get_not_mem eid src rest _ F hFrest,
            hstep_entry, Record.get_set_self]
        · rw [List.foldl_cons]
          apply foldl_mergeField_logs_mono
          rw [hstep_logs]
          simp
      · have hne : f ≠ F := by
          intro h
          subst h
          exact (List.nodup_cons.mp hnd).1 hF'
        have hpres := mergeField_get_ne eid src st f F hne
        rw [List.foldl_cons]
        exact ih _ _ _ (List.nodup_cons.mp hnd).2 hF' hsv
          (by rw [hpres]; exact hempty)

theorem foldl_mergeField_all_meaningful (eid : JValue) (src : Record) :
    ∀ (fields : List String) (st : FieldState),
      (∀ F ∈ fields, ∀ sv, src.get F = some sv →
        ∃ w, st.entry.get F = some w ∧ is_meaningful w = true) →
      (fields.foldl (mergeField eid src) st).added = st.added ∧
        (fields.foldl (mergeField eid src) st).entry = st.entry := by
  intro fields
  induction fields with
  | nil => intro st _; simp
  | cons f rest ih =>
      intro st h
      have hstep : (mergeField eid src st f).entry = st.entry ∧
          (mergeField eid src st f).added = st.added := by
        unfold mergeField
        cases hsf : src.get f with
        | none => simp
        | some sv =>
            obtain ⟨w, hw, hmw⟩ := h f (List.mem_cons_self f rest) sv hsf
            simp [hw, hmw, Record.contains]
      rw [List.foldl_cons]
      have hrest : ∀ F ∈ rest, ∀ sv, src.get F = some sv →
          ∃ w, (mergeField eid src st f).entry.get F = some w ∧
            is_meaningful w = true := by
        intro F hF sv hsv
        rw [hstep.1]
        exact h F (List.mem_cons_of_mem f hF) sv hsv
      obtain ⟨ha, he⟩ := ih _ hrest
      exact ⟨by rw [ha, hstep.2], by rw [he, hstep.1]⟩

theorem foldl_mergeField_meaningful_after (eid : JValue) (src : Record)
    (fields : List String) (st : FieldState) (F : String) (sv : JValue)
    (hnd : fields.Nodup) (hF : F ∈ fields) (hsv : src.get F = some sv)
    (hmsv : is_meaningful sv = true) :
    ∃ w, (fields.foldl (mergeField eid src) st).entry.get F = some w ∧
      is_meaningful w = true := by
  by_cases hme : is_meaningful ((st.entry.get F).getD .null) = true
  · cases hg : st.entry.get F with
    | none =>
        rw [hg] at hme
        simp [is_meaningful] at hme
    | some v =>
        rw [hg] at hme
        simp at hme
        exact ⟨v, foldl_mergeField_get_preserve eid src fields st F v hg hme,
          hme⟩
  · have hempty : is_meaningful ((st.entry.get F).getD .null) = false := by
      simpa using hme
    exact ⟨sv, (foldl_mergeField_fill eid src fields st F sv hnd hF hsv
      hempty).1, hmsv⟩

theorem foldl_mergeField_added_skipped (eid : JValue) (src : Record) :
    ∀ (fields : List String) (st : FieldState),
      (fields.foldl (mergeField eid src) st).added +
        (fields.foldl (mergeField eid src) st).skipped =
      st.added + st.skipped + fields.countP (fun F => src.contains F) := by
  intro fields
  induction fields with
  | nil => intro st; simp
  | cons f rest ih =>
      intro st
      rw [List.foldl_cons, ih]
      cases hsf : src.get f with
      | none =>
          have hc : src.contains f = false := by simp [Record.contains, hsf]
          unfold mergeField
          simp [hsf, List.countP_cons, hc]
      | some sv =>
          have hc : src.contains f = true := by simp [Record.contains, hsf]
          unfold mergeField
          by_cases hcond :
              (st.entry.contains f &&
                is_meaningful ((st.entry.get f).getD .null)) = true
          · simp [hsf, hcond, List.countP_cons, hc]
            omega
          · simp [hsf, hcond, List.countP_cons, hc]
            omega

theorem isAddLog_addLog (eid : JValue) (F : String) (sv : JValue) :
    isAddLog (addLog eid F sv) = true := by
  simp [isAddLog, addLog, Record.get]

theorem isAddLog_skipLog (eid : JValue) (F : String) (v sv : JValue) :
    isAddLog (skipLog eid F v sv) = false := by
  simp [isAddLog, skipLog, Record.get]

theorem foldl_mergeField_countAdd (eid : JValue) (src : Record) :
    ∀ (fields : List String) (st : FieldState),
      st.logs.countP isAddLog = st.added →
      (fields.foldl (mergeField eid src) st).logs.countP isAddLog =
        (fields.foldl (mergeField eid src) st).added := by
  intro fields
  induction fields with
  | nil => intro st h; simpa using h
  | cons f rest ih =>
      intro st h
      rw [List.foldl_cons]
      apply ih
      unfold mergeField
      cases hsf : src.get f with
      | none => simpa using h
      | some sv =>
          by_cases hcond :
              (st.entry.contains f &&
                is_meaningful ((st.entry.get f).getD .null)) = true
          · simp [hcond, List.countP_append, List.countP_cons,
              isAddLog_skipLog, h]
          · simp [hcond, List.countP_append, List.countP_cons,
              isAddLog_addLog, h]

/-! ## Claims about annotation indexing -/

/-- C10: an annotation line that parses as a record but has no `id` key is
skipped by both `load_logs` and `load_validation_logs`: the resulting mapping
is exactly the one obtained with the line absent, so such a record never
influences any merge decision. -/
theorem C10_no_id_annotations_dropped (parseTs : String → Option Nat)
    (pre post : List Record) (rec : Record)
    (h : rec.contains "id" = false) :
    load_logs parseTs (pre ++ rec :: post) = load_logs parseTs (pre ++ post) ∧
    load_validation_logs (pre ++ rec :: post) =
      load_validation_logs (pre ++ post) := by
  have hget : rec.get "id" = none := by
    cases hg : rec.get "id" with
    | none => rfl
    | some v =>
        rw [Record.contains, hg] at h
        simp at h
  constructor
  · unfold load_logs
    rw [List.foldl_append, List.foldl_append, List.foldl_cons]
    have hskip : loadLogsStep parseTs
        (List.foldl (loadLogsStep parseTs) [] pre) rec =
        List.foldl (loadLogsStep parseTs) [] pre := by
      unfold loadLogsStep
      rw [hget]
    rw [hskip]
  · unfold load_validation_logs
    rw [List.foldl_append, List.foldl_append, List.foldl_cons]
    simp [hget]

/-- Witness for C10 at a concrete input: the record `{"notes": "x"}` carries
no id and leaves both index mappings unchanged. -/
theorem C10_witness :
    Record.contains [("notes", JValue.str "x")] "id" = false ∧
    load_logs (fun _ => none)
        ([[("id", JValue.str "a")]] ++ [("notes", JValue.str "x")] ::
          [[("id", JValue.str "b")]]) =
      load_logs (fun _ => none)
        ([[("id", JValue.str "a")]] ++ [[("id", JValue.str "b")]]) ∧
    load_validation_logs
        ([[("id", JValue.str "a")]] ++ [("notes", JValue.str "x")] ::
          [[("id", JValue.str "b")]]) =
      load_validation_logs
        ([[("id", JValue.str "a")]] ++ [[("id", JValue.str "b")]]) := by
  refine ⟨by decide, ?_, ?_⟩
  · exact (C10_no_id_annotations_dropped (fun _ => none)
      [[("id", JValue.str "a")]] [[("id", JValue.str "b")]]
      [("notes", JValue.str "x")] (by decide)).1
  · exact (C10_no_id_annotations_dropped (fun _ => none)
      [[("id", JValue.str "a")]] [[("id", JValue.str "b")]]
      [("notes", JValue.str "x")] (by decide)).2

/-- C4: duplicate-id resolution in `load_logs`: for two annotations with the
same id both carrying parsable timestamps t1 < t2, the one with t2 wins in
either source order; for two with no parsable timestamp, the one occurring
later in the source wins. -/
theorem C4_duplicate_id_resolution (parseTs : String → Option Nat)
    (r1 r2 : Record) (i : JValue) (t1 t2 : Nat)
    (h1 : r1.get "id" = some i) (h2 : r2.get "id" = some i) :
    (recTs parseTs r1 = some t1 → recTs parseTs r2 = some t2 → t1 < t2 →
      (load_logs parseTs [r1, r2]).find i = some r2 ∧
      (load_logs parseTs [r2, r1]).find i = some r2) ∧
    (recTs parseTs r1 = none → recTs parseTs r2 = none →
      (load_logs parseTs [r1, r2]).find i = some r2 ∧
      (load_logs parseTs [r2, r1]).find i = some r1) := by
  have hfirst : ∀ r : Record, r.get "id" = some i →
      loadLogsStep parseTs [] r = [(i, r)] := by
    intro r hr
    unfold loadLogsStep
    rw [hr]
    simp [AnnMap.find, AnnMap.put]
  have hpair : ∀ a b : Record, a.get "id" = some i →
      load_logs parseTs [a, b] = loadLogsStep parseTs [(i, a)] b := by
    intro a b ha
    unfold load_logs
    rw [List.foldl_cons, List.foldl_cons, List.foldl_nil, hfirst a ha]
  constructor
  · intro hts1 hts2 hlt
    constructor
    · rw [hpair r1 r2 h1]
      unfold loadLogsStep
      rw [h2]
      simp [AnnMap.find, AnnMap.put, hts1, hts2, hlt]
    · rw [hpair r2 r1 h2]
      unfold loadLogsStep
      rw [h1]
      simp [AnnMap.find, AnnMap.put, hts1, hts2,
        show ¬ t2 < t1 from by omega]
  · intro hn1 hn2
    constructor
    · rw [hpair r1 r2 h1]
      unfold loadLogsStep
      rw [h2]
      simp [AnnMap.find, AnnMap.put, hn1, hn2]
    · rw [hpair r2 r1 h2]
      unfold loadLogsStep
      rw [h1]
      simp [AnnMap.find, AnnMap.put, hn1, hn2]

/-- Witness for C4 at concrete inputs: with timestamps "T1" parsing to 1 and
"T2" parsing to 2, the later-timestamped record wins in both orders, and with
unparsable timestamps the later occurrence wins. -/
theorem C4_witness :
    ((load_logs (fun s => if s = "T1" then some 1 else if s = "T2" then some 2 else none)
        [[("id", JValue.str "a"), ("timestamp", JValue.str "T1")],
         [("id", JValue.str "a"), ("timestamp", JValue.str "T2")]]).find
      (JValue.str "a") =
      some [("id", JValue.str "a"), ("timestamp", JValue.str "T2")] ∧
    (load_logs (fun s => if s = "T1" then some 1 else if s = "T2" then some 2 else none)
        [[("id", JValue.str "a"), ("timestamp", JValue.str "T2")],
         [("id", JValue.str "a"), ("timestamp", JValue.str "T1")]]).find
      (JValue.str "a") =
      some [("id", JValue.str "a"), ("timestamp", JValue.str "T2")]) ∧
    ((load_logs (fun _ => none)
        [[("id", JValue.str "b")], [("id", JValue.str "b"), ("k", JValue.null)]]).find
      (JValue.str "b") =
      some [("id", JValue.str "b"), ("k", JValue.null)] ∧
    (load_logs (fun _ => none)
        [[("id", JValue.str "b"), ("k", JValue.null)], [("id", JValue.str "b")]]).find
      (JValue.str "b") =
      some [("id", JValue.str "b")]) := by
  constructor
  · exact (C4_duplicate_id_resolution
      (fun s => if s = "T1" then some 1 else if s = "T2" then some 2 else none)
      [("id", JValue.str "a"), ("timestamp", JValue.str "T1")]
      [("id", JValue.str "a"), ("timestamp", JValue.str "T2")]
      (JValue.str "a") 1 2 (by decide) (by decide)).1
      (by decide) (by decide) (by decide)
  · exact (C4_duplicate_id_resolution (fun _ => none)
      [("id", JValue.str "b")]
      [("id", JValue.str "b"), ("k", JValue.null)]
      (JValue.str "b") 0 0 (by decide) (by decide)).2
      (by decide) (by decide)

/-- C9: in `load_logs` duplicate resolution, an annotation with a parsable
timestamp beats one without, in either source order; and with equal parsable
timestamps the earlier occurrence is kept (in either order, the first of the
two wins). -/
theorem C9_timestamped_dominates (parseTs : String → Option Nat)
    (r1 r2 : Record) (i : JValue) (t t2 : Nat)
    (h1 : r1.get "id" = some i) (h2 : r2.get "id" = some i) :
    (recTs parseTs r1 = some t → recTs parseTs r2 = none →
      (load_logs parseTs [r1, r2]).find i = some r1 ∧
      (load_logs parseTs [r2, r1]).find i = some r1) ∧
    (recTs parseTs r1 = some t → recTs parseTs r2 = some t2 → t = t2 →
      (load_logs parseTs [r1, r2]).find i = some r1 ∧
      (load_logs parseTs [r2, r1]).find i = some r2) := by
  have hfirst : ∀ r : Record, r.get "id" = some i →
      loadLogsStep parseTs [] r = [(i, r)] := by
    intro r hr
    unfold loadLogsStep
    rw [hr]
    simp [AnnMap.find, AnnMap.put]
  have hpair : ∀ a b : Record, a.get "id" = some i →
      load_logs parseTs [a, b] = loadLogsStep parseTs [(i, a)] b := by
    intro a b ha
    unfold load_logs
    rw [List.foldl_cons, List.foldl_cons, List.foldl_nil, hfirst a ha]
  constructor
  · intro hts hn
    constructor
    · rw [hpair r1 r2 h1]
      unfold loadLogsStep
      rw [h2]
      simp [AnnMap.find, AnnMap.put, hts, hn]
    · rw [hpair r2 r1 h2]
      unfold loadLogsStep
      rw [h1]
      simp [AnnMap.find, AnnMap.put, hts, hn]
  · intro hts hts2 heq
    subst heq
    constructor
    · rw [hpair r1 r2 h1]
      unfold loadLogsStep
      rw [h2]
      simp [AnnMap.find, AnnMap.put, hts, hts2]
    · rw [hpair r2 r1 h2]
      unfold loadLogsStep
      rw [h1]
      simp [AnnMap.find, AnnMap.put, hts, hts2]

/-- Witness for C9 at concrete inputs: a record with timestamp "T1" (parsing
to 1) beats an untimestamped record in both orders, and with equal
timestamps the first occurrence wins. -/
theorem C9_witness :
    ((load_logs (fun s => if s = "T1" then some 1 else none)
        [[("id", JValue.str "a"), ("timestamp", JValue.str "T1")],
         [("id", JValue.str "a")]]).find (JValue.str "a") =
      some [("id", JValue.str "a"), ("timestamp", JValue.str "T1")] ∧
    (load_logs (fun s => if s = "T1" then some 1 else none)
        [[("id", JValue.str "a")],
         [("id", JValue.str "a"), ("timestamp", JValue.str "T1")]]).find
      (JValue.str "a") =
      some [("id", JValue.str "a"), ("timestamp", JValue.str "T1")]) ∧
    ((load_logs (fun s => if s = "T1" then some 1 else none)
        [[("id", JValue.str "a"), ("timestamp", JValue.str "T1")],
         [("id", JValue.str "a"), ("timestamp", JValue.str "T1"), ("k", JValue.null)]]).find
      (JValue.str "a") =
      some [("id", JValue.str "a"), ("timestamp", JValue.str "T1")] ∧
    (load_logs (fun s => if s = "T1" then some 1 else none)
        [[("id", JValue.str "a"), ("timestamp", JValue.str "T1"), ("k", JValue.null)],
         [("id", JValue.str "a"), ("timestamp", JValue.str "T1")]]).find
      (JValue.str "a") =
      some [("id", JValue.str "a"), ("timestamp", JValue.str "T1"), ("k", JValue.null)]) := by
  constructor
  · exact (C9_timestamped_dominates (fun s => if s = "T1" then some 1 else none)
      [("id", JValue.str "a"), ("timestamp", JValue.str "T1")]
      [("id", JValue.str "a")] (JValue.str "a") 1 1
      (by decide) (by decide)).1 (by decide) (by decide)
  · exact (C9_timestamped_dominates (fun s => if s = "T1" then some 1 else none)
      [("id", JValue.str "a"), ("timestamp", JValue.str "T1")]
      [("id", JValue.str "a"), ("timestamp", JValue.str "T1"), ("k", JValue.null)]
      (JValue.str "a") 1 1 (by decide) (by decide)).2
      (by decide) (by decide) (by decide)

/-! ## Claims about `merge` -/

theorem mergeFields_def (eid : JValue) (src : Record) (e : Record) :
    mergeFields eid src e =
      WHITELIST_FIELDS.foldl (mergeField eid src) ⟨e, [], 0, 0, false⟩ := rfl

theorem entryDelta_matched (L : AnnMap) (e src : Record) (eid : JValue)
    (hid : e.get "id" = some eid) (htru : pyTruthy eid = true)
    (hfind : L.find eid = some src) (hne : src.isEmpty = false) :
    entryDelta L e =
      ⟨(mergeFields eid src e).entry, (mergeFields eid src e).logs, 1,
       (mergeFields eid src e).added, (mergeFields eid src e).skipped,
       if (mergeFields eid src e).modified then 1 else 0, 0⟩ := by
  unfold entryDelta
  rw [hid]
  simp [truthyOpt, htru, truthyRec, hfind, hne]

theorem entryDelta_noId (L : AnnMap) (e : Record)
    (h : truthyOpt (e.get "id") = false) :
    entryDelta L e = ⟨e, [], 0, 0, 0, 0, 0⟩ := by
  unfold entryDelta
  simp [h]

theorem entryDelta_unmatched (L : AnnMap) (e : Record)
    (h1 : truthyOpt (e.get "id") = true)
    (h2 : truthyRec (L.find ((e.get "id").getD .null)) = false) :
    entryDelta L e = ⟨e, [], 0, 0, 0, 0, 1⟩ := by
  unfold entryDelta
  simp [h1, h2]

/-- C1: non-overwrite invariant of `merge`: a record with a (truthy) id and a
matching (truthy) annotation keeps its value at any whitelisted field F that
already holds a meaningful value, whatever value the annotation supplies for
F, and the decision is logged as a `skip_overwrite` record. -/
theorem C1_non_overwrite (ds : List Record) (L : AnnMap) (i : Nat)
    (entry src : Record) (eid : JValue) (F : String) (v sv : JValue)
    (hent : ds[i]? = some entry)
    (hid : entry.get "id" = some eid) (htru : pyTruthy eid = true)
    (hfind : L.find eid = some src) (hne : src.isEmpty = false)
    (hF : F ∈ WHITELIST_FIELDS) (hsv : src.get F = some sv)
    (hv : entry.get F = some v) (hm : is_meaningful v = true) :
    ∃ entry', (merge ds L).1[i]? = some entry' ∧ entry'.get F = some v ∧
      skipLog eid F v sv ∈ (merge ds L).2.1 := by
  have hdelta := entryDelta_matched L entry src eid hid htru hfind hne
  refine ⟨(mergeFields eid src entry).entry, ?_, ?_, ?_⟩
  · rw [merge_eq, List.getElem?_map, hent]
    simp [hdelta]
  · rw [mergeFields_def]
    exact foldl_mergeField_get_preserve eid src WHITELIST_FIELDS
      ⟨entry, [], 0, 0, false⟩ F v hv hm
  · rw [merge_eq]
    apply List.mem_flatMap.mpr
    refine ⟨entry, List.getElem?_mem hent, ?_⟩
    simp only [hdelta]
    rw [mergeFields_def]
    exact foldl_mergeField_skip_mem eid src WHITELIST_FIELDS
      ⟨entry, [], 0, 0, false⟩ F v sv hF hsv hv hm

/-- Witness for C1 at a concrete input: a record already holding
`category = "old"` keeps it against an annotation supplying `"new"`, and the
skip is logged. -/
theorem C1_witness :
    is_meaningful (JValue.str "old") = true ∧
    (∃ entry',
      (merge [[("id", JValue.str "a"), ("category", JValue.str "old")]]
        [(JValue.str "a",
          [("id", JValue.str "a"), ("category", JValue.str "new")])]).1[0]? =
        some entry' ∧
      Record.get entry' "category" = some (JValue.str "old") ∧
      skipLog (JValue.str "a") "category" (JValue.str "old")
          (JValue.str "new") ∈
        (merge [[("id", JValue.str "a"), ("category", JValue.str "old")]]
          [(JValue.str "a",
            [("id", JValue.str "a"), ("category", JValue.str "new")])]).2.1) :=
  ⟨by decide,
   C1_non_overwrite
     [[("id", JValue.str "a"), ("category", JValue.str "old")]]
     [(JValue.str "a", [("id", JValue.str "a"), ("category", JValue.str "new")])]
     0 [("id", JValue.str "a"), ("category", JValue.str "old")]
     [("id", JValue.str "a"), ("category", JValue.str "new")]
     (JValue.str "a") "category" (JValue.str "old") (JValue.str "new")
     (by decide) (by decide) (by decide) (by decide) (by decide) (by decide)
     (by decide) (by decide) (by decide)⟩

/-- C2: fill invariant of `merge`: a record with a (truthy) id and a matching
(truthy) annotation that supplies a whitelisted field F gets the annotation's
value at F whenever its own value at F is absent or non-meaningful; an
`add_field` log record is emitted and `fields_added` is incremented. -/
theorem C2_fill (ds : List Record) (L : AnnMap) (i : Nat)
    (entry src : Record) (eid : JValue) (F : String) (sv : JValue)
    (hent : ds[i]? = some entry)
    (hid : entry.get "id" = some eid) (htru : pyTruthy eid = true)
    (hfind : L.find eid = some src) (hne : src.isEmpty = false)
    (hF : F ∈ WHITELIST_FIELDS) (hsv : src.get F = some sv)
    (hempty : is_meaningful ((entry.get F).getD .null) = false) :
    ∃ entry', (merge ds L).1[i]? = some entry' ∧ entry'.get F = some sv ∧
      addLog eid F sv ∈ (merge ds L).2.1 ∧
      0 < (merge ds L).2.2.fields_added := by
  have hdelta := entryDelta_matched L entry src eid hid htru hfind hne
  have hnodup : WHITELIST_FIELDS.Nodup := by decide
  have hfill := foldl_mergeField_fill eid src WHITELIST_FIELDS
    ⟨entry, [], 0, 0, false⟩ F sv hnodup hF hsv hempty
  refine ⟨(mergeFields eid src entry).entry, ?_, ?_, ?_, ?_⟩
  · rw [merge_eq, List.getElem?_map, hent]
    simp [hdelta]
  · rw [mergeFields_def]
    exact hfill.1
  · rw [merge_eq]
    apply List.mem_flatMap.mpr
    refine ⟨entry, List.getElem?_mem hent, ?_⟩
    simp only [hdelta]
    rw [mergeFields_def]
    exact hfill.2
  · have hca : (mergeFields eid src entry).logs.countP isAddLog =
        (mergeFields eid src entry).added := by
      rw [mergeFields_def]
      exact foldl_mergeField_countAdd eid src WHITELIST_FIELDS
        ⟨entry, [], 0, 0, false⟩ (by simp)
    have hpos : 0 < (mergeFields eid src entry).added := by
      rw [← hca]
      apply List.countP_pos_iff.mpr
      exact ⟨addLog eid F sv, by rw [mergeFields_def]; exact hfill.2,
        isAddLog_addLog eid F sv⟩
    have hdpos : 0 < (entryDelta L entry).added := by
      simp only [hdelta]
      exact hpos
    have hmem : (entryDelta L entry).added ∈
        ds.map (fun e => (entryDelta L e).added) :=
      List.mem_map_of_mem _ (List.getElem?_mem hent)
    have hle : (entryDelta L entry).added ≤
        (ds.map (fun e => (entryDelta L e).added)).sum :=
      List.single_le_sum (fun y _ => Nat.zero_le y) _ hmem
    rw [merge_eq]
    exact Nat.lt_of_lt_of_le hdpos hle

/-- Witness for C2 at a concrete input: a record lacking `category` receives
the annotation's value `"noun"`, the addition is logged, and `fields_added`
is positive. -/
theorem C2_witness :
    is_meaningful ((Record.get [("id", JValue.str "a")] "category").getD
      JValue.null) = false ∧
    (∃ entry',
      (merge [[("id", JValue.str "a")]]
        [(JValue.str "a",
          [("id", JValue.str "a"), ("category", JValue.str "noun")])]).1[0]? =
        some entry' ∧
      Record.get entry' "category" = some (JValue.str "noun") ∧
      addLog (JValue.str "a") "category" (JValue.str "noun") ∈
        (merge [[("id", JValue.str "a")]]
          [(JValue.str "a",
            [("id", JValue.str "a"), ("category", JValue.str "noun")])]).2.1 ∧
      0 < (merge [[("id", JValue.str "a")]]
        [(JValue.str "a",
          [("id", JValue.str "a"), ("category", JValue.str "noun")])]).2.2.fields_added) :=
  ⟨by decide,
   C2_fill [[("id", JValue.str "a")]]
     [(JValue.str "a", [("id", JValue.str "a"), ("category", JValue.str "noun")])]
     0 [("id", JValue.str "a")]
     [("id", JValue.str "a"), ("category", JValue.str "noun")]
     (JValue.str "a") "category" (JValue.str "noun")
     (by decide) (by decide) (by decide) (by decide) (by decide) (by decide)
     (by decide) (by decide)⟩

theorem entryDelta_added_skipped (L : AnnMap) (e : Record) :
    (entryDelta L e).added + (entryDelta L e).skipped = decisionCount L e := by
  by_cases h1 : truthyOpt (e.get "id") = true
  · by_cases h2 : truthyRec (L.find ((e.get "id").getD .null)) = true
    · cases hg : e.get "id" with
      | none =>
          rw [hg] at h1
          simp [truthyOpt] at h1
      | some eid =>
          have htru : pyTruthy eid = true := by
            rw [hg] at h1
            simpa [truthyOpt] using h1
          rw [hg] at h2
          simp only [Option.getD_some] at h2
          cases hfind : L.find eid with
          | none =>
              rw [hfind] at h2
              simp [truthyRec] at h2
          | some src =>
              rw [hfind] at h2
              have hne : src.isEmpty = false := by
                simpa [truthyRec] using h2
              rw [entryDelta_matched L e src eid hg htru hfind hne]
              unfold decisionCount
              rw [hg]
              simp only [Option.getD_some, hfind]
              simp only [truthyOpt, htru, truthyRec, hne, Bool.not_false,
                Bool.and_self, if_true]
              rw [mergeFields_def]
              have := foldl_mergeField_added_skipped eid src WHITELIST_FIELDS
                ⟨e, [], 0, 0, false⟩
              simpa using this
    · have h2' : truthyRec (L.find ((e.get "id").getD .null)) = false := by
        simpa using h2
      rw [entryDelta_unmatched L e h1 h2']
      unfold decisionCount
      simp [h2']
  · have h1' : truthyOpt (e.get "id") = false := by simpa using h1
    rw [entryDelta_noId L e h1']
    unfold decisionCount
    simp [h1']

theorem sum_added_skipped (L : AnnMap) (ds : List Record) :
    (ds.map (fun e => (entryDelta L e).added)).sum +
      (ds.map (fun e => (entryDelta L e).skipped)).sum =
      (ds.map (decisionCount L)).sum := by
  induction ds with
  | nil => simp
  | cons e rest ih =>
      simp only [List.map_cons, List.sum_cons]
      have h := entryDelta_added_skipped L e
      omega

theorem entryDelta_withLog_unmatched (L : AnnMap) (e : Record) :
    (entryDelta L e).withLog + (entryDelta L e).unmatched =
      if truthyOpt (e.get "id") then 1 else 0 := by
  by_cases h1 : truthyOpt (e.get "id") = true
  · by_cases h2 : truthyRec (L.find ((e.get "id").getD .null)) = true
    · unfold entryDelta
      simp [h1, h2]
    · have h2' : truthyRec (L.find ((e.get "id").getD .null)) = false := by
        simpa using h2
      rw [entryDelta_unmatched L e h1 h2']
      simp [h1]
  · have h1' : truthyOpt (e.get "id") = false := by simpa using h1
    rw [entryDelta_noId L e h1']
    simp [h1']

theorem sum_withLog_unmatched (L : AnnMap) (ds : List Record) :
    (ds.map (fun e => (entryDelta L e).withLog)).sum +
      (ds.map (fun e => (entryDelta L e).unmatched)).sum =
      ds.length - ds.countP (fun e => !truthyOpt (e.get "id")) := by
  induction ds with
  | nil => simp
  | cons e rest ih =>
      simp only [List.map_cons, List.sum_cons, List.countP_cons,
        List.length_cons]
      have h := entryDelta_withLog_unmatched L e
      have hle : rest.countP (fun e => !truthyOpt (e.get "id")) ≤ rest.length :=
        List.countP_le_length _
      by_cases h1 : truthyOpt (e.get "id") = true
      · rw [h1] at h
        simp only [if_true] at h
        simp [h1]
        omega
      · have h1' : truthyOpt (e.get "id") = false := by simpa using h1
        rw [h1'] at h
        simp at h
        simp [h1']
        omega

/-- C5: counter consistency of `merge`: `fields_added +
fields_skipped_overwrite` equals the number of (record, field) pairs with a
truthy id, a truthy matched annotation, and a whitelisted field present in
that annotation; and `entries_with_log + entries_unmatched` equals
`entries_total` minus the number of records lacking a (truthy) id. -/
theorem C5_counter_consistency (ds : List Record) (L : AnnMap) :
    (merge ds L).2.2.fields_added +
        (merge ds L).2.2.fields_skipped_overwrite =
      (ds.map (decisionCount L)).sum ∧
    (merge ds L).2.2.entries_with_log + (merge ds L).2.2.entries_unmatched =
      (merge ds L).2.2.entries_total -
        ds.countP (fun e => !truthyOpt (e.get "id")) := by
  rw [merge_eq]
  exact ⟨sum_added_skipped L ds, sum_withLog_unmatched L ds⟩

/-- Counterexample to C6 as stated: for the one-record dataset
`[{"name": "x"}]` (no id) and an empty annotation map, the claim asserts the
unmatched/untouched counter is incremented for the record, but `merge` leaves
every counter except `entries_total` at zero (the record is skipped
uncounted). -/
theorem C6_counterexample :
    (merge [[("name", JValue.str "x")]] []).2.2.entries_unmatched = 0 ∧
    (merge [[("name", JValue.str "x")]] []).2.2 = ⟨1, 0, 0, 0, 0, 0⟩ ∧
    (merge [[("name", JValue.str "x")]] []).1 = [[("name", JValue.str "x")]] := by
  decide

/-- C6 amended: `merge` leaves a record with a missing or falsy `id`
untouched in place and excludes it from merging — the log and every stats
counter except `entries_total` equal those of the run without the record —
and processing continues with the remaining records. No per-record counter
(in particular not `entries_unmatched`) is incremented for it; it is
reflected only in `entries_total`. -/
theorem C6_missing_id_skipped (pre post : List Record) (L : AnnMap)
    (entry : Record) (h : truthyOpt (entry.get "id") = false) :
    (merge (pre ++ entry :: post) L).1 =
      (merge pre L).1 ++ entry :: (merge post L).1 ∧
    (merge (pre ++ entry :: post) L).2.1 = (merge (pre ++ post) L).2.1 ∧
    (merge (pre ++ entry :: post) L).2.2 =
      { (merge (pre ++ post) L).2.2 with
        entries_total := (pre ++ entry :: post).length } := by
  have hd := entryDelta_noId L entry h
  refine ⟨?_, ?_, ?_⟩
  · rw [merge_eq, merge_eq, merge_eq]
    simp [hd]
  · rw [merge_eq, merge_eq]
    simp [hd]
  · rw [merge_eq, merge_eq]
    simp [hd]

/-- Witness for C6 (amended) at a concrete input: the id-less record
`{"name": "x"}` between two processed records is passed through untouched
and changes no counter but `entries_total`. -/
theorem C6_witness :
    truthyOpt (Record.get [("name", JValue.str "x")] "id") = false ∧
    (merge ([[("id", JValue.str "b")]] ++ [("name", JValue.str "x")] ::
        [[("id", JValue.str "c")]]) []).1 =
      (merge [[("id", JValue.str "b")]] []).1 ++ [("name", JValue.str "x")] ::
        (merge [[("id", JValue.str "c")]] []).1 ∧
    (merge ([[("id", JValue.str "b")]] ++ [("name", JValue.str "x")] ::
        [[("id", JValue.str "c")]]) []).2.2 =
      { (merge ([[("id", JValue.str "b")]] ++ [[("id", JValue.str "c")]]) []).2.2 with
        entries_total := ([[("id", JValue.str "b")]] ++ [("name", JValue.str "x")] ::
          [[("id", JValue.str "c")]]).length } :=
  ⟨by decide,
   (C6_missing_id_skipped [[("id", JValue.str "b")]] [[("id", JValue.str "c")]]
     [] [("name", JValue.str "x")] (by decide)).1,
   (C6_missing_id_skipped [[("id", JValue.str "b")]] [[("id", JValue.str "c")]]
     [] [("name", JValue.str "x")] (by decide)).2.2⟩

theorem secondRun_added_zero (L : AnnMap) (e : Record)
    (hvals : ∀ p ∈ L, ∀ F ∈ WHITELIST_FIELDS,
      Option.all is_meaningful (p.2.get F) = true) :
    (entryDelta L ((entryDelta L e).entry)).added = 0 := by
  by_cases h1 : truthyOpt (e.get "id") = true
  · by_cases h2 : truthyRec (L.find ((e.get "id").getD .null)) = true
    · cases hg : e.get "id" with
      | none =>
          rw [hg] at h1
          simp [truthyOpt] at h1
      | some eid =>
          have htru : pyTruthy eid = true := by
            rw [hg] at h1
            simpa [truthyOpt] using h1
          rw [hg] at h2
          simp only [Option.getD_some] at h2
          cases hfind : L.find eid with
          | none =>
              rw [hfind] at h2
              simp [truthyRec] at h2
          | some src =>
              rw [hfind] at h2
              have hne : src.isEmpty = false := by
                simpa [truthyRec] using h2
              have he1 : (entryDelta L e).entry = (mergeFields eid src e).entry := by
                rw [entryDelta_matched L e src eid hg htru hfind hne]
              rw [he1]
              have hid1 : (mergeFields eid src e).entry.get "id" = some eid := by
                rw [mergeFields_def,
                  foldl_mergeField_get_not_mem eid src WHITELIST_FIELDS
                    ⟨e, [], 0, 0, false⟩ "id" (by decide)]
                exact hg
              rw [entryDelta_matched L ((mergeFields eid src e).entry) src eid
                hid1 htru hfind hne]
              have hall : ∀ F ∈ WHITELIST_FIELDS, ∀ sv, src.get F = some sv →
                  ∃ w, (mergeFields eid src e).entry.get F = some w ∧
                    is_meaningful w = true := by
                intro F hF sv hsv
                have hm : is_meaningful sv = true := by
                  have hmem := AnnMap.find_mem L eid src hfind
                  have hv := hvals (eid, src) hmem F hF
                  rw [hsv] at hv
                  simpa using hv
                rw [mergeFields_def]
                exact foldl_mergeField_meaningful_after eid src WHITELIST_FIELDS
                  ⟨e, [], 0, 0, false⟩ F sv (by decide) hF hsv hm
              have hz := foldl_mergeField_all_meaningful eid src WHITELIST_FIELDS
                ⟨(mergeFields eid src e).entry, [], 0, 0, false⟩ hall
              rw [mergeFields_def]
              exact hz.1
    · have h2' : truthyRec (L.find ((e.get "id").getD .null)) = false := by
        simpa using h2
      have he : (entryDelta L e).entry = e := by
        rw [entryDelta_unmatched L e h1 h2']
      rw [he, entryDelta_unmatched L e h1 h2']
  · have h1' : truthyOpt (e.get "id") = false := by simpa using h1
    have he : (entryDelta L e).entry = e := by
      rw [entryDelta_noId L e h1']
    rw [he, entryDelta_noId L e h1']

/-- Counterexample to C3 as stated: for the dataset `[{"id": "a"}]` and an
annotation supplying the non-meaningful value `category = null`, the first
run adds `category = null`; the field is still non-meaningful on the second
run, which therefore produces an `add_field` decision again — `fields_added`
is 1 in the second run, not 0. -/
theorem C3_counterexample :
    (merge (merge [[("id", JValue.str "a")]]
        [(JValue.str "a", [("id", JValue.str "a"), ("category", JValue.null)])]).1
      [(JValue.str "a", [("id", JValue.str "a"),
        ("category", JValue.null)])]).2.2.fields_added = 1 ∧
    ¬ (merge (merge [[("id", JValue.str "a")]]
        [(JValue.str "a", [("id", JValue.str "a"), ("category", JValue.null)])]).1
      [(JValue.str "a", [("id", JValue.str "a"),
        ("category", JValue.null)])]).2.2.fields_added = 0 := by
  decide

/-- C3 amended: running `merge` again with the same indexed annotations on
the merged dataset produces zero `add_field` decisions, provided every value
the annotations supply for a whitelisted field is itself meaningful (without
that proviso a supplied non-meaningful value, e.g. null, is re-added on
every run, so the second run's `fields_added` can be positive). -/
theorem C3_idempotent_no_adds (ds : List Record) (L : AnnMap)
    (hvals : ∀ p ∈ L, ∀ F ∈ WHITELIST_FIELDS,
      Option.all is_meaningful (p.2.get F) = true) :
    (merge (merge ds L).1 L).2.2.fields_added = 0 := by
  have h1 : (merge ds L).1 = ds.map (fun e => (entryDelta L e).entry) := by
    rw [merge_eq]
  rw [h1]
  have h2 : (merge (ds.map (fun e => (entryDelta L e).entry)) L).2.2.fields_added =
      ((ds.map (fun e => (entryDelta L e).entry)).map
        (fun e => (entryDelta L e).added)).sum := by
    rw [merge_eq]
  rw [h2]
  apply List.sum_eq_zero
  intro x hx
  obtain ⟨e1, he1, rfl⟩ := List.mem_map.mp hx
  obtain ⟨e, he, rfl⟩ := List.mem_map.mp he1
  exact secondRun_added_zero L e hvals

/-- Witness for C3 (amended) at a concrete input: the annotation supplies
the meaningful value `category = "noun"`; the second run adds nothing. -/
theorem C3_witness :
    (∀ p ∈ ([(JValue.str "a",
        [("id", JValue.str "a"), ("category", JValue.str "noun")])] : AnnMap),
      ∀ F ∈ WHITELIST_FIELDS,
        Option.all is_meaningful (Record.get p.2 F) = true) ∧
    (merge (merge [[("id", JValue.str "a")]]
        [(JValue.str "a", [("id", JValue.str "a"), ("category", JValue.str "noun")])]).1
      [(JValue.str "a", [("id", JValue.str "a"),
        ("category", JValue.str "noun")])]).2.2.fields_added = 0 :=
  ⟨by decide,
   C3_idempotent_no_adds [[("id", JValue.str "a")]]
     [(JValue.str "a", [("id", JValue.str "a"), ("category", JValue.str "noun")])]
     (by decide)⟩

/-! ## Claims about the validation merge -/

theorem vEntryDelta_matched (V : AnnMap) (e validation : Record) (eid : JValue)
    (hid : e.get "id" = some eid) (htru : pyTruthy eid = true)
    (hfind : V.find eid = some validation) (hne : validation.isEmpty = false) :
    (vEntryDelta V e).entry =
      match validation.get "include" with
      | some inc => (e.set "include" inc).set "validation"
          (.obj (JObj.ofList (restrictFields validation VALIDATION_FIELDS)))
      | none => e.set "validation"
          (.obj (JObj.ofList (restrictFields validation VALIDATION_FIELDS))) := by
  unfold vEntryDelta
  rw [hid]
  simp [truthyOpt, htru, truthyRec, hfind, hne]

/-- C8: the nested variant overwrites unconditionally: a record with a truthy
id and a truthy matched validation record gets its `validation` key set to
exactly the annotation restricted to `VALIDATION_FIELDS`, and, when the
annotation carries `include`, its top-level `include` key set to the
annotation's value — with no meaningfulness check, whatever values the record
held before. -/
theorem C8_unconditional_overwrite (ds : List Record) (V : AnnMap) (i : Nat)
    (entry validation : Record) (eid : JValue)
    (hent : ds[i]? = some entry)
    (hid : entry.get "id" = some eid) (htru : pyTruthy eid = true)
    (hfind : V.find eid = some validation) (hne : validation.isEmpty = false) :
    ∃ entry', (vMerge ds V).1[i]? = some entry' ∧
      entry'.get "validation" =
        some (.obj (JObj.ofList (restrictFields validation VALIDATION_FIELDS))) ∧
      (validation.contains "include" = true →
        entry'.get "include" = validation.get "include") := by
  refine ⟨(vEntryDelta V entry).entry, ?_, ?_, ?_⟩
  · rw [vMerge_eq, List.getElem?_map, hent]
    rfl
  · rw [vEntryDelta_matched V entry validation eid hid htru hfind hne]
    cases hinc : validation.get "include" with
    | none => simp [Record.get_set_self]
    | some inc => simp [Record.get_set_self]
  · intro hc
    rw [vEntryDelta_matched V entry validation eid hid htru hfind hne]
    cases hinc : validation.get "include" with
    | none =>
        rw [Record.contains, hinc] at hc
        simp at hc
    | some inc =>
        have hne2 : "validation" ≠ "include" := by decide
        simp [Record.get_set_ne _ _ _ _ hne2, Record.get_set_self]

/-- Witness for C8 at a concrete input: pre-existing meaningful `include` and
`validation` values on the record are both replaced by the annotation's. -/
theorem C8_witness :
    pyTruthy (JValue.str "a") = true ∧
    (∃ entry',
      (vMerge [[("id", JValue.str "a"), ("include", JValue.bool false),
          ("validation", JValue.str "old")]]
        [(JValue.str "a", [("id", JValue.str "a"), ("include", JValue.bool true),
          ("notes", JValue.str "n")])]).1[0]? = some entry' ∧
      Record.get entry' "validation" =
        some (.obj (JObj.ofList (restrictFields
          [("id", JValue.str "a"), ("include", JValue.bool true),
           ("notes", JValue.str "n")] VALIDATION_FIELDS))) ∧
      (Record.contains [("id", JValue.str "a"), ("include", JValue.bool true),
          ("notes", JValue.str "n")] "include" = true →
        Record.get entry' "include" =
          Record.get [("id", JValue.str "a"), ("include", JValue.bool true),
            ("notes", JValue.str "n")] "include")) :=
  ⟨by decide,
   C8_unconditional_overwrite
     [[("id", JValue.str "a"), ("include", JValue.bool false),
       ("validation", JValue.str "old")]]
     [(JValue.str "a", [("id", JValue.str "a"), ("include", JValue.bool true),
       ("notes", JValue.str "n")])]
     0
     [("id", JValue.str "a"), ("include", JValue.bool false),
      ("validation", JValue.str "old")]
     [("id", JValue.str "a"), ("include", JValue.bool true),
      ("notes", JValue.str "n")]
     (JValue.str "a")
     (by decide) (by decide) (by decide) (by decide) (by decide)⟩

/-- Counterexample to C7 as stated: with annotation
`{"id": "a", "include": true}`, the sub-mapping written under `validation`
is `{"include": true}` — it contains the gate field itself — whereas the
claim's "remaining whitelisted fields (those other than the gate field)"
would be the empty mapping. -/
theorem C7_counterexample :
    Record.get ((vMerge [[("id", JValue.str "a")]]
        [(JValue.str "a", [("id", JValue.str "a"),
          ("include", JValue.bool true)])]).1.headD []) "validation" =
      some (.obj (.cons "include" (.bool true) .nil)) ∧
    nestRemainingClaim [("id", JValue.str "a"), ("include", JValue.bool true)] =
      [] ∧
    ¬ Record.get ((vMerge [[("id", JValue.str "a")]]
        [(JValue.str "a", [("id", JValue.str "a"),
          ("include", JValue.bool true)])]).1.headD []) "validation" =
      some (.obj (JObj.ofList (nestRemainingClaim
        [("id", JValue.str "a"), ("include", JValue.bool true)]))) := by
  decide

/-- C7 amended: when the matched annotation supplies the gate field
`include`, the validation merge writes the gate field directly onto the top
level of the record and writes the whitelisted fields the annotation supplies
— including the gate field itself, not only the remaining ones — into the
sub-mapping under `validation`, rather than flattening them onto the
record. -/
theorem C7_nested_policy (ds : List Record) (V : AnnMap) (i : Nat)
    (entry validation : Record) (eid inc : JValue)
    (hent : ds[i]? = some entry)
    (hid : entry.get "id" = some eid) (htru : pyTruthy eid = true)
    (hfind : V.find eid = some validation) (hne : validation.isEmpty = false)
    (hinc : validation.get "include" = some inc) :
    ∃ entry', (vMerge ds V).1[i]? = some entry' ∧
      entry'.get "include" = some inc ∧
      entry'.get "validation" =
        some (.obj (JObj.ofList (restrictFields validation VALIDATION_FIELDS))) := by
  refine ⟨(vEntryDelta V entry).entry, ?_, ?_, ?_⟩
  · rw [vMerge_eq, List.getElem?_map, hent]
    rfl
  · rw [vEntryDelta_matched V entry validation eid hid htru hfind hne, hinc]
    have hne2 : "validation" ≠ "include" := by decide
    simp [Record.get_set_ne _ _ _ _ hne2, Record.get_set_self]
  · rw [vEntryDelta_matched V entry validation eid hid htru hfind hne, hinc]
    simp [Record.get_set_self]

/-- Witness for C7 (amended) at a concrete input: `include` is written at top
level and the sub-mapping holds every supplied whitelisted field, `include`
included. -/
theorem C7_witness :
    Record.get [("id", JValue.str "a"), ("include", JValue.bool true),
        ("notes", JValue.str "n")] "include" = some (JValue.bool true) ∧
    (∃ entry',
      (vMerge [[("id", JValue.str "a"), ("word", JValue.str "w")]]
        [(JValue.str "a", [("id", JValue.str "a"), ("include", JValue.bool true),
          ("notes", JValue.str "n")])]).1[0]? = some entry' ∧
      Record.get entry' "include" = some (JValue.bool true) ∧
      Record.get entry' "validation" =
        some (.obj (JObj.ofList (restrictFields
          [("id", JValue.str "a"), ("include", JValue.bool true),
           ("notes", JValue.str "n")] VALIDATION_FIELDS)))) :=
  ⟨by decide,
   C7_nested_policy
     [[("id", JValue.str "a"), ("word", JValue.str "w")]]
     [(JValue.str "a", [("id", JValue.str "a"), ("include", JValue.bool true),
       ("notes", JValue.str "n")])]
     0
     [("id", JValue.str "a"), ("word", JValue.str "w")]
     [("id", JValue.str "a"), ("include", JValue.bool true),
      ("notes", JValue.str "n")]
     (JValue.str "a") (JValue.bool true)
     (by decide) (by decide) (by decide) (by decide) (by decide) (by decide)⟩
